import Mathlib

/-!
Shallow embedding of the control plane of a VM-backed agent-execution fleet
(warm-pool scheduler, registry event bus, log-stream manager, dispatcher),
together with proofs of its specified properties.

Conventions of the embedding:
* Go machine integers (`int`) are modelled as `Int`; counters and times that
  only ever increase are modelled as `Nat` where noted.
* `time.Time` values are modelled as `Nat` (an abstract instant).
* Go maps are modelled as association lists with key-uniqueness stated
  where a property needs it.
* Fallible external calls (hypervisor clone/copy/shell, file writes) are
  modelled as boolean/`Option` oracles passed to the embedded operation.
* Mutating methods become pure functions from state to state.
-/

namespace Pool

/-- Slot lifecycle states of the warm pool (`SlotState` in the source:
`creating`, `idle`, `active`, `cold`). -/
inductive SlotState where
  | creating
  | idle
  | active
  | cold
deriving DecidableEq, Repr

/-- A pool slot (`VMSlot` in the source). Times are modelled as `Nat`. -/
structure VMSlot where
  name : String
  state : SlotState
  agentID : String := ""
  project : String := ""
  tool : String := ""
  branch : String := ""
  issue : String := ""
  vmIP : String := ""
  createdAt : Nat := 0
  claimedAt : Nat := 0
deriving DecidableEq, Repr

/-- Pool configuration (`PoolConfig` in the source). -/
structure PoolConfig where
  warmSize : Int
  maxVMs : Int
  masterName : String
deriving DecidableEq, Repr

/-- The in-place update `Manager.Claim` performs on the slot it selects:
state becomes `active`, `agentID`/`project`/`claimedAt` are stamped, and the
best-effort IP probe result is recorded when it succeeded (`ip = some _`). -/
def claimUpdate (agentID project : String) (now : Nat) (ip : Option String)
    (s : VMSlot) : VMSlot :=
  { s with state := SlotState.active, agentID := agentID, project := project,
           claimedAt := now, vmIP := ip.getD s.vmIP }

/-- The scan loop of `Manager.Claim`: find the first `idle` slot, update it
in place, and return the updated slot together with the updated table. -/
def claimAux (agentID project : String) (now : Nat) (ip : Option String) :
    List VMSlot → Option (VMSlot × List VMSlot)
  | [] => none
  | s :: rest =>
    if s.state = SlotState.idle then
      let s' := claimUpdate agentID project now ip s
      some (s', s' :: rest)
    else
      (claimAux agentID project now ip rest).map fun p => (p.1, s :: p.2)

/-- `Manager.Claim` (src/unnamed/part_008): returns the claimed slot or the
capacity error; the second component is the slot table after the call. -/
def claim (agentID project : String) (now : Nat) (ip : Option String)
    (slots : List VMSlot) : Except String VMSlot × List VMSlot :=
  match claimAux agentID project now ip slots with
  | some (s, l) => (Except.ok s, l)
  | none => (Except.error "no warm VMs available", slots)

/-- The in-place update `Manager.Release` performs on the slot it locates:
state becomes `cold`, `agentID` and `project` are cleared. -/
def releaseSlot (s : VMSlot) : VMSlot :=
  { s with state := SlotState.cold, agentID := "", project := "" }

/-- `Manager.Release` (src/unnamed/part_008): locate the first slot with the
given name, set it `cold` and clear its agent binding; error if absent. -/
def release (name : String) : List VMSlot → Except String (List VMSlot)
  | [] => Except.error "VM not found in pool"
  | s :: rest =>
    if s.name = name then Except.ok (releaseSlot s :: rest)
    else (release name rest).map fun l => s :: l

/-- The slot-table part of `Manager.Destroy`: remove the first slot with the
given name; error if absent (the hypervisor delete is external). -/
def destroy (name : String) : List VMSlot → Except String (List VMSlot)
  | [] => Except.error "VM not found in pool"
  | s :: rest =>
    if s.name = name then Except.ok rest
    else (destroy name rest).map fun l => s :: l

/-- `Manager.GetSlot` (src/unnamed/part_008): first slot whose `name` or
`agentID` equals the query. -/
def getSlot (x : String) : List VMSlot → Option VMSlot
  | [] => none
  | s :: rest =>
    if s.name = x ∨ s.agentID = x then some s else getSlot x rest

/-- The `needed` computation at the head of `Manager.Replenish`, translated
control-flow-for-control-flow from the Go source (the early `return` inside
the guard becomes the value `0`). -/
def needed (cfg : PoolConfig) (slots : List VMSlot) : Int :=
  let warmCount : Int :=
    ((slots.filter fun s => s.state = SlotState.idle).length : Int)
  let total : Int := (slots.length : Int)
  let n := cfg.warmSize - warmCount
  if n ≤ 0 ∨ total + n > cfg.maxVMs then
    let n' := if total + n > cfg.maxVMs then cfg.maxVMs - total else n
    if n' ≤ 0 then 0 else n'
  else n

/-- VM naming scheme `warm-<counter>` used by `Manager.Replenish`. -/
def vmName (c : Int) : String := "warm-" ++ toString c

/-- The success path of a replenish iteration: flip the first slot with the
given name to `idle`. -/
def setIdleByName (name : String) : List VMSlot → List VMSlot
  | [] => []
  | s :: rest =>
    if s.name = name then { s with state := SlotState.idle } :: rest
    else s :: setIdleByName name rest

/-- The failure path of a replenish iteration: remove the first slot with
the given name. -/
def removeByName (name : String) : List VMSlot → List VMSlot
  | [] => []
  | s :: rest =>
    if s.name = name then rest else s :: removeByName name rest

/-- The per-VM loop of `Manager.Replenish`, run for `n` iterations: bump the
counter, append a `creating` slot named `warm-<counter>`, invoke the clone
oracle, and on success/failure flip the slot to `idle` / remove it. Returns
the final table, the final counter, and the names inserted. -/
def replenishGo (clone : Int → Bool) (now : Nat) :
    Nat → List VMSlot → Int → List VMSlot × Int × List String
  | 0, slots, c => (slots, c, [])
  | n + 1, slots, c =>
    let c' := c + 1
    let nm := vmName c'
    let afterInsert :=
      slots ++ [{ name := nm, state := SlotState.creating, createdAt := now }]
    let afterClone :=
      if clone c' then setIdleByName nm afterInsert
      else removeByName nm afterInsert
    let r := replenishGo clone now n afterClone c'
    (r.1, r.2.1, nm :: r.2.2)

/-- `Manager.Replenish` (src/unnamed/part_008), with the hypervisor `Clone`
modelled as an oracle keyed by the counter value of the cloned VM. -/
def replenish (cfg : PoolConfig) (clone : Int → Bool) (now : Nat)
    (slots : List VMSlot) (c : Int) : List VMSlot × Int × List String :=
  replenishGo clone now (needed cfg slots).toNat slots c

/-- The slot-table effect of `Manager.Drain`: destroy every slot that is
currently `idle` (destroy errors are logged and ignored in the source). -/
def drain (slots : List VMSlot) : List VMSlot :=
  let toDestroy := (slots.filter fun s => s.state = SlotState.idle).map VMSlot.name
  toDestroy.foldl
    (fun acc nm =>
      match destroy nm acc with
      | Except.ok l => l
      | Except.error _ => acc)
    slots

/-- `Manager.reconcile`: keep only the slots whose VM still exists in the
hypervisor listing. -/
def reconcile (existing : List String) (slots : List VMSlot) : List VMSlot :=
  slots.filter fun s => s.name ∈ existing

/-- `Manager.Status`: counts of (warm, active, cold) slots. -/
def status (slots : List VMSlot) : Nat × Nat × Nat :=
  ((slots.filter fun s => s.state = SlotState.idle).length,
   (slots.filter fun s => s.state = SlotState.active).length,
   (slots.filter fun s => s.state = SlotState.cold).length)

/-- The agent-binding invariant of the slot table:
a slot is `active` exactly when its `agentID` is non-empty. -/
def Inv (slots : List VMSlot) : Prop :=
  ∀ s ∈ slots, (s.state = SlotState.active ↔ s.agentID ≠ "")

instance (slots : List VMSlot) : Decidable (Inv slots) := by
  unfold Inv; infer_instance

/-! ### Persistence (`stateStore` in src/unnamed/part_009)

`Save` serializes `PersistentState` to one JSON document, `Load` parses it
back (absent file → zero value). The JSON value tree is modelled by `Json`
below; time fields are carried as numbers of the abstract `Nat` instants. -/

/-- A JSON value. -/
inductive Json where
  | str : String → Json
  | num : Int → Json
  | arr : List Json → Json
  | obj : List (String × Json) → Json

/-- Field lookup in a JSON object body (first binding wins, as produced by
the encoder below, which never duplicates keys). -/
def jGet (k : String) : List (String × Json) → Option Json
  | [] => none
  | (k', v) :: rest => if k' = k then some v else jGet k rest

/-- The persisted snapshot (`PersistentState` in the source). -/
structure PersistentState where
  slots : List VMSlot
  counter : Int
deriving DecidableEq, Repr

/-- Wire form of a slot state string. -/
def slotStateStr : SlotState → String
  | SlotState.creating => "creating"
  | SlotState.idle => "idle"
  | SlotState.active => "active"
  | SlotState.cold => "cold"

/-- Parse a slot state string. -/
def slotStateOfStr (s : String) : Option SlotState :=
  if s = "creating" then some SlotState.creating
  else if s = "idle" then some SlotState.idle
  else if s = "active" then some SlotState.active
  else if s = "cold" then some SlotState.cold
  else none

/-- An `omitempty`-tagged string field: omitted when the value is empty. -/
def optField (k v : String) : List (String × Json) :=
  if v = "" then [] else [(k, Json.str v)]

/-- Serialize one slot following the struct tags of `VMSlot`: the string
fields tagged `omitempty` are omitted when empty; `name`, `state` and the
two timestamps are always present (a `time.Time` is a struct, which Go's
`omitempty` never treats as empty). -/
def encodeSlot (s : VMSlot) : Json :=
  Json.obj
    ([("name", Json.str s.name), ("state", Json.str (slotStateStr s.state))]
      ++ optField "agentID" s.agentID ++ optField "project" s.project
      ++ optField "tool" s.tool ++ optField "branch" s.branch
      ++ optField "issue" s.issue ++ optField "vmIP" s.vmIP
      ++ [("createdAt", Json.num (s.createdAt : Int)),
          ("claimedAt", Json.num (s.claimedAt : Int))])

/-- Interpret an optional string field value, defaulting to the zero
value when the field is absent. -/
def jStrVal : Option Json → Option String
  | none => some ""
  | some (Json.str v) => some v
  | some _ => none

/-- Read an optional string field, defaulting to the zero value. -/
def jStr (k : String) (fields : List (String × Json)) : Option String :=
  jStrVal (jGet k fields)

/-- Interpret an optional timestamp field value, defaulting to the zero
value when the field is absent. -/
def jTimeVal : Option Json → Option Nat
  | none => some 0
  | some (Json.num v) => if v < 0 then none else some v.toNat
  | some _ => none

/-- Read an optional timestamp field, defaulting to the zero value. -/
def jTime (k : String) (fields : List (String × Json)) : Option Nat :=
  jTimeVal (jGet k fields)

/-- Parse one slot: missing fields take the Go zero value. -/
def decodeSlot : Json → Option VMSlot
  | Json.obj fields =>
    match jStr "name" fields, jGet "state" fields with
    | some name, some (Json.str st) =>
      match slotStateOfStr st, jStr "agentID" fields, jStr "project" fields,
            jStr "tool" fields, jStr "branch" fields, jStr "issue" fields,
            jStr "vmIP" fields, jTime "createdAt" fields,
            jTime "claimedAt" fields with
      | some state, some agentID, some project, some tool, some branch,
        some issue, some vmIP, some createdAt, some claimedAt =>
        some { name := name, state := state, agentID := agentID,
               project := project, tool := tool, branch := branch,
               issue := issue, vmIP := vmIP, createdAt := createdAt,
               claimedAt := claimedAt }
      | _, _, _, _, _, _, _, _, _ => none
    | _, _ => none
  | _ => none

/-- Serialize the snapshot (`{slots: [...], counter: n}`). -/
def encodeState (st : PersistentState) : Json :=
  Json.obj [("slots", Json.arr (st.slots.map encodeSlot)),
            ("counter", Json.num st.counter)]

/-- Parse every element of the slots array, failing if any fails. -/
def decodeSlots : List Json → Option (List VMSlot)
  | [] => some []
  | j :: rest =>
    match decodeSlot j, decodeSlots rest with
    | some s, some l => some (s :: l)
    | _, _ => none

/-- Parse the snapshot document. -/
def decodeState : Json → Option PersistentState
  | Json.obj fields =>
    match jGet "slots" fields, jGet "counter" fields with
    | some (Json.arr l), some (Json.num c) =>
      match decodeSlots l with
      | some slots => some { slots := slots, counter := c }
      | none => none
    | _, _ => none
  | _ => none

/-- `stateStore.Save`: overwrite the file with the full document. The file
content is modelled as `Option Json` (`none` = file absent). -/
def storeSave (st : PersistentState) (_file : Option Json) : Option Json :=
  some (encodeState st)

/-- `stateStore.Load`: absent file yields the zero snapshot; a present file
is parsed (parse failure is the `parsing pool state` error). -/
def storeLoad (file : Option Json) : Except String PersistentState :=
  match file with
  | none => Except.ok { slots := [], counter := 0 }
  | some j =>
    match decodeState j with
    | some st => Except.ok st
    | none => Except.error "parsing pool state"

end Pool

namespace Orch

/-- A dispatch request (`DispatchRequest` in src/unnamed/part_017). -/
structure DispatchRequest where
  project : String := ""
  repoURL : String := ""
  issue : String := ""
  tool : String := ""
  prompt : String := ""
  branch : String := ""
  maxTime : Int := 0
  maxTokens : Int := 0
  envVars : List (String × String) := []
deriving DecidableEq, Repr

/-- The task contract shipped into a VM (`TaskConfig` in the source). -/
structure TaskConfig where
  agentID : String := ""
  project : String := ""
  repoURL : String := ""
  issue : String := ""
  tool : String := ""
  prompt : String := ""
  branch : String := ""
  maxTime : Int := 0
  maxTokens : Int := 0
  envVars : List (String × String) := []
  hostAddr : String := ""
  dispatchedAt : Nat := 0
deriving DecidableEq, Repr

/-- The allowed tool set (`validTools` in the source). -/
def validTools : List String := ["claude-code", "opencode", "amp", "cline"]

/-- `ValidateTask`: reject empty `project`/`repoURL`/`prompt` and unknown
tools; apply the `maxTime` and `branch` defaults (the Go function mutates
its argument, modelled here by returning the updated config). -/
def validateTask (tc : TaskConfig) : Except String TaskConfig :=
  if tc.project = "" then Except.error "project is required"
  else if tc.repoURL = "" then Except.error "repoURL is required"
  else if tc.prompt = "" then Except.error "prompt is required"
  else if tc.tool ∉ validTools then Except.error "invalid tool"
  else
    let tc1 := if tc.maxTime ≤ 0 then { tc with maxTime := 30 } else tc
    let tc2 :=
      if tc1.branch = "" then
        { tc1 with branch := "agent/" ++ tc1.project ++ "/" ++ tc1.agentID }
      else tc1
    Except.ok tc2

/-- The `TaskConfig` literal built at the top of `Orchestrator.Dispatch`. -/
def mkTask (req : DispatchRequest) (agentID hostAddr : String) (now : Nat) :
    TaskConfig :=
  { agentID := agentID, project := req.project, repoURL := req.repoURL,
    issue := req.issue, tool := req.tool, prompt := req.prompt,
    branch := req.branch, maxTime := req.maxTime, maxTokens := req.maxTokens,
    envVars := req.envVars, hostAddr := hostAddr, dispatchedAt := now }

/-- Outcomes of the external calls `Orchestrator.Dispatch` makes after a
slot has been claimed, plus the IP probe inside `Claim`. -/
structure DispatchOracles where
  ip : Option String := none
  writeTask : Bool := true
  copyTask : Bool := true
  writeEnv : Bool := true
  copyEnv : Bool := true
  shell : Bool := true
deriving DecidableEq, Repr

/-- `DispatchResult` in the source. -/
structure DispatchResult where
  agentID : String
  vmName : String
  vmIP : String
deriving DecidableEq, Repr

/-- The rollback path: `o.pool.Release(slot.Name)` with the error value
discarded, as in the source. -/
def rollback (name : String) (slots : List Pool.VMSlot) : List Pool.VMSlot :=
  match Pool.release name slots with
  | Except.ok l => l
  | Except.error _ => slots

/-- `Orchestrator.Dispatch` (src/unnamed/part_017): validate, claim a warm
slot, then perform the config-copy / env-copy / runner-restart steps, each
of which rolls the claimed slot back via `Release` on failure. The second
component is the slot table after the call. -/
def dispatch (req : DispatchRequest) (agentID hostAddr : String) (now : Nat)
    (orc : DispatchOracles) (slots : List Pool.VMSlot) :
    Except String DispatchResult × List Pool.VMSlot :=
  match validateTask (mkTask req agentID hostAddr now) with
  | Except.error e => (Except.error ("invalid task: " ++ e), slots)
  | Except.ok _ =>
    match Pool.claim agentID req.project now orc.ip slots with
    | (Except.error e, _) => (Except.error ("claiming VM: " ++ e), slots)
    | (Except.ok slot, slots1) =>
      if !orc.writeTask then
        (Except.error "writing task config", rollback slot.name slots1)
      else if !orc.copyTask then
        (Except.error "injecting task config", rollback slot.name slots1)
      else if !orc.writeEnv then
        (Except.error "writing env file", rollback slot.name slots1)
      else if !orc.copyEnv then
        (Except.error "injecting env config", rollback slot.name slots1)
      else if !orc.shell then
        (Except.error "restarting harness", rollback slot.name slots1)
      else
        (Except.ok { agentID := agentID, vmName := slot.name,
                     vmIP := slot.vmIP }, slots1)

end Orch

namespace Reg

/-- An agent registration (`AgentRegistration` in
src/internal/registry/types.go). Times are modelled as `Nat`. -/
structure AgentRegistration where
  agentID : String := ""
  vmName : String := ""
  vmIP : String := ""
  project : String := ""
  tool : String := ""
  branch : String := ""
  message : String := ""
  ports : List Int := []
  state : String := ""
  registeredAt : Nat := 0
  lastHeartbeat : Nat := 0
deriving DecidableEq, Repr

/-- Store event kinds (`StoreEventType` in the source). -/
inductive StoreEventType where
  | registered
  | deregistered
  | updated
deriving DecidableEq, Repr

/-- `StoreEvent`: emitted on every registry mutation; `agent` is the
(possibly nil) pointer carried by the event. -/
structure StoreEvent where
  type : StoreEventType
  agentID : String
  agent : Option AgentRegistration
deriving DecidableEq, Repr

/-- Lookup in the agent map (Go `s.agents[agentID]`). -/
def mapLookup (k : String) :
    List (String × AgentRegistration) → Option AgentRegistration
  | [] => none
  | (k', v) :: rest => if k' = k then some v else mapLookup k rest

/-- Map assignment (Go `s.agents[k] = v`): replace the binding if the key is
present, append it otherwise. -/
def mapInsert (k : String) (v : AgentRegistration) :
    List (String × AgentRegistration) → List (String × AgentRegistration)
  | [] => [(k, v)]
  | (k', v') :: rest =>
    if k' = k then (k, v) :: rest else (k', v') :: mapInsert k v rest

/-- Map deletion (Go `delete(s.agents, k)`). -/
def mapErase (k : String) :
    List (String × AgentRegistration) → List (String × AgentRegistration)
  | [] => []
  | (k', v') :: rest =>
    if k' = k then rest else (k', v') :: mapErase k rest

/-- Subscriber queue capacity (`make(chan StoreEvent, 64)`). -/
def queueCap : Nat := 64

/-- Non-blocking send to one subscriber queue: append when there is room,
drop the event silently when the queue is full. -/
def notifyOne (ev : StoreEvent) (q : List StoreEvent) : List StoreEvent :=
  if q.length < queueCap then q ++ [ev] else q

/-- `Store.notify` (src/unnamed/part_011): offer the event to every
subscriber queue via the non-blocking send. -/
def notify (ev : StoreEvent) (subs : List (List StoreEvent)) :
    List (List StoreEvent) :=
  subs.map (notifyOne ev)

/-- The registry store state: the agent map plus the subscriber queues. -/
structure Store where
  agents : List (String × AgentRegistration)
  subs : List (List StoreEvent)

/-- `Store.Register` (src/unnamed/part_011): insert the registration and
emit a `registered` event carrying it. -/
def register (reg : AgentRegistration) (st : Store) : Store :=
  { agents := mapInsert reg.agentID reg st.agents,
    subs := notify { type := StoreEventType.registered, agentID := reg.agentID,
                     agent := some reg } st.subs }

/-- `Store.Deregister` (src/unnamed/part_011): read the (possibly absent)
entry, delete it, and emit a `deregistered` event carrying what was read. -/
def deregister (agentID : String) (st : Store) : Store :=
  { agents := mapErase agentID st.agents,
    subs := notify { type := StoreEventType.deregistered, agentID := agentID,
                     agent := mapLookup agentID st.agents } st.subs }

/-- `Store.UpdateState` (src/internal/registry/store.go, the two-argument
form the HTTP handler calls): error if the agent is unknown, otherwise
overwrite only its `state`. -/
def updateState (agentID state : String)
    (agents : List (String × AgentRegistration)) :
    Except String (List (String × AgentRegistration)) :=
  match mapLookup agentID agents with
  | none => Except.error "agent not registered"
  | some reg => Except.ok (mapInsert agentID { reg with state := state } agents)

/-- The decoded body of a POST `/status` request as `handleStatus` reads it
(src/internal/registry/server.go): only `agentID`, `state` and `message`
are decoded — there is no `branch` field in the handler's struct. -/
structure StatusReport where
  agentID : String := ""
  state : String := ""
  message : String := ""
deriving DecidableEq, Repr

/-- `Server.handleStatus` on a well-formed body: call
`UpdateState(agentID, state)` and answer 404 on its error, 200 otherwise.
The decoded `message` is only logged; it is not passed to the store. -/
def handleStatus (r : StatusReport)
    (agents : List (String × AgentRegistration)) :
    Nat × List (String × AgentRegistration) :=
  match updateState r.agentID r.state agents with
  | Except.error _ => (404, agents)
  | Except.ok l => (200, l)

end Reg

namespace WS

/-- One log stream record (`logStream` in src/internal/ws/commands.go):
clients are identified by `Nat` ids, the cancellation token by the `Nat`
issued when the stream was created. -/
structure LogStream where
  agentID : String
  vmName : String
  token : Nat
  clients : List Nat
deriving DecidableEq, Repr

/-- `LogStreamManager` state: the streams map (keyed by `agentID`), the set
of cancelled tokens, and the next fresh token. -/
structure LSM where
  streams : List LogStream
  cancelled : List Nat
  nextToken : Nat
deriving DecidableEq, Repr

/-- Set-style insertion into a stream's client set
(Go `stream.clients[client] = true`). -/
def addClient (c : Nat) (l : List Nat) : List Nat :=
  if c ∈ l then l else l ++ [c]

/-- Set-style removal (Go `delete(stream.clients, client)`). -/
def removeClient (c : Nat) (l : List Nat) : List Nat :=
  l.filter fun x => x ≠ c

/-- `LogStreamManager.Subscribe`: reuse the stream for the agent when one
exists; otherwise look the agent up in the pool (returning silently when
absent) and create a stream with a fresh cancellation token; finally add
the client to the stream's subscriber set. -/
def subscribe (agentID : String) (c : Nat) (slot : Option Pool.VMSlot)
    (st : LSM) : LSM :=
  match st.streams.find? fun s => s.agentID = agentID with
  | some _ =>
    { st with
      streams := st.streams.map fun s =>
        if s.agentID = agentID then { s with clients := addClient c s.clients }
        else s }
  | none =>
    match slot with
    | none => st
    | some sl =>
      { st with
        streams := st.streams ++
          [{ agentID := agentID, vmName := sl.name, token := st.nextToken,
             clients := [c] }],
        nextToken := st.nextToken + 1 }

/-- `LogStreamManager.Unsubscribe`: remove the client; when the subscriber
set becomes empty, cancel the stream's token and delete the record. -/
def unsubscribe (agentID : String) (c : Nat) (st : LSM) : LSM :=
  match st.streams.find? fun s => s.agentID = agentID with
  | none => st
  | some s =>
    let remaining := removeClient c s.clients
    if remaining = [] then
      { st with
        streams := st.streams.filter fun t => t.agentID ≠ agentID,
        cancelled := st.cancelled ++ [s.token] }
    else
      { st with
        streams := st.streams.map fun t =>
          if t.agentID = agentID then { t with clients := remaining } else t }

/-- `LogStreamManager.UnsubscribeAll`: remove the client from every stream,
cancelling and deleting each stream whose subscriber set becomes empty. -/
def unsubscribeAll (c : Nat) (st : LSM) : LSM :=
  let shrunk := st.streams.map fun s => { s with clients := removeClient c s.clients }
  { st with
    streams := shrunk.filter fun s => s.clients ≠ [],
    cancelled := st.cancelled ++
      ((shrunk.filter fun s => s.clients = []).map LogStream.token) }

/-- One call into the manager. `sub` carries the `PoolManager.GetSlot`
answer for the agent at that moment, as the manager observes it. -/
inductive LSMOp where
  | sub (agentID : String) (c : Nat) (slot : Option Pool.VMSlot)
  | unsub (agentID : String) (c : Nat)
  | unsubAll (c : Nat)

/-- Apply one call. -/
def applyOp (st : LSM) : LSMOp → LSM
  | LSMOp.sub a c s => subscribe a c s st
  | LSMOp.unsub a c => unsubscribe a c st
  | LSMOp.unsubAll c => unsubscribeAll c st

/-- The manager's initial state (`NewLogStreamManager`). -/
def initLSM : LSM := { streams := [], cancelled := [], nextToken := 0 }

/-- Run a call sequence from the initial state. -/
def runLSM (ops : List LSMOp) : LSM := ops.foldl applyOp initLSM

end WS

/-! ## Properties -/

namespace Pool

/-- The match predicate of `getSlot`. -/
def slotMatches (x : String) (s : VMSlot) : Prop :=
  s.name = x ∨ s.agentID = x

instance (x : String) (s : VMSlot) : Decidable (slotMatches x s) := by
  unfold slotMatches; infer_instance

theorem getSlot_some_iff (x : String) (slots : List VMSlot) (s : VMSlot) :
    getSlot x slots = some s ↔
      slotMatches x s ∧
        ∃ l1 l2, slots = l1 ++ s :: l2 ∧ ∀ t ∈ l1, ¬slotMatches x t := by
  induction slots with
  | nil =>
    simp only [getSlot]
    constructor
    · intro h; exact absurd h (by simp)
    · rintro ⟨-, l1, l2, h, -⟩; exact absurd h (by simp)
  | cons a rest ih =>
    by_cases hp : slotMatches x a
    · simp only [getSlot, if_pos (show a.name = x ∨ a.agentID = x from hp)]
      constructor
      · intro h
        obtain rfl : a = s := by injection h
        exact ⟨hp, [], rest, rfl, by simp⟩
      · rintro ⟨hs, l1, l2, hdecomp, hfirst⟩
        match l1, hdecomp with
        | [], hdecomp =>
          obtain rfl : a = s := by injection hdecomp
          rfl
        | b :: l1', hdecomp =>
          obtain rfl : a = b := by injection hdecomp
          exact absurd hp (hfirst a (by simp))
    · simp only [getSlot, if_neg (show ¬(a.name = x ∨ a.agentID = x) from hp)]
      rw [ih]
      constructor
      · rintro ⟨hs, l1, l2, rfl, hfirst⟩
        exact ⟨hs, a :: l1, l2, rfl, by
          intro t ht
          rcases List.mem_cons.mp ht with rfl | ht
          · exact hp
          · exact hfirst t ht⟩
      · rintro ⟨hs, l1, l2, hdecomp, hfirst⟩
        match l1, hdecomp with
        | [], hdecomp =>
          obtain rfl : a = s := by injection hdecomp
          exact absurd hs hp
        | b :: l1', hdecomp =>
          obtain ⟨rfl, hrest⟩ : a = b ∧ rest = l1' ++ s :: l2 := by
            injection hdecomp with h1 h2; exact ⟨h1, h2⟩
          exact ⟨hs, l1', l2, hrest, fun t ht => hfirst t (by simp [ht])⟩

theorem getSlot_isSome_iff (x : String) (slots : List VMSlot) :
    (getSlot x slots).isSome ↔ ∃ s ∈ slots, slotMatches x s := by
  induction slots with
  | nil => simp [getSlot]
  | cons a rest ih =>
    by_cases hp : slotMatches x a
    · simp only [getSlot, if_pos (show a.name = x ∨ a.agentID = x from hp)]
      simp only [Option.isSome_some, true_iff]
      exact ⟨a, by simp, hp⟩
    · simp only [getSlot, if_neg (show ¬(a.name = x ∨ a.agentID = x) from hp)]
      rw [ih]
      constructor
      · rintro ⟨s, hs, hm⟩; exact ⟨s, by simp [hs], hm⟩
      · rintro ⟨s, hs, hm⟩
        rcases List.mem_cons.mp hs with rfl | hs
        · exact absurd hm hp
        · exact ⟨s, hs, hm⟩

end Pool

/-- C10: `GetSlot(x)` succeeds iff some slot has `Name = x` or
`AgentID = x`; the returned slot is the first such slot in insertion order
(every slot before it in the table matches neither field), and `GetSlot`
returns nothing otherwise. -/
theorem C10_getSlot_lookup (x : String) (slots : List Pool.VMSlot) :
    ((Pool.getSlot x slots).isSome ↔
      ∃ s ∈ slots, s.name = x ∨ s.agentID = x) ∧
    (∀ s, Pool.getSlot x slots = some s ↔
      (s.name = x ∨ s.agentID = x) ∧
        ∃ l1 l2, slots = l1 ++ s :: l2 ∧
          ∀ t ∈ l1, ¬(t.name = x ∨ t.agentID = x)) ∧
    (Pool.getSlot x slots = none ↔
      ∀ s ∈ slots, ¬(s.name = x ∨ s.agentID = x)) := by
  refine ⟨Pool.getSlot_isSome_iff x slots, fun s => Pool.getSlot_some_iff x slots s, ?_⟩
  rw [← Option.not_isSome_iff_eq_none, Pool.getSlot_isSome_iff]
  simp [Pool.slotMatches]

namespace Pool

theorem release_ok_iff (name : String) (slots : List VMSlot) :
    (∃ l, release name slots = Except.ok l) ↔ ∃ s ∈ slots, s.name = name := by
  induction slots with
  | nil => simp [release]
  | cons a rest ih =>
    by_cases ha : a.name = name
    · simp [release, ha]
    · simp only [release, if_neg ha]
      constructor
      · rintro ⟨l, hl⟩
        match hrest : release name rest with
        | Except.ok l' =>
          obtain ⟨s, hs, hn⟩ := ih.mp ⟨l', hrest⟩
          exact ⟨s, by simp [hs], hn⟩
        | Except.error e => rw [hrest] at hl; exact absurd hl (by simp [Except.map])
      · rintro ⟨s, hs, hn⟩
        rcases List.mem_cons.mp hs with rfl | hs
        · exact absurd hn ha
        · obtain ⟨l, hl⟩ := ih.mpr ⟨s, hs, hn⟩
          exact ⟨a :: l, by rw [hl]; rfl⟩

theorem release_error_of_absent (name : String) (slots : List VMSlot)
    (h : ∀ s ∈ slots, s.name ≠ name) :
    release name slots = Except.error "VM not found in pool" := by
  induction slots with
  | nil => rfl
  | cons a rest ih =>
    have ha : ¬a.name = name := h a (by simp)
    simp only [release, if_neg ha]
    rw [ih fun s hs => h s (by simp [hs])]
    rfl

theorem release_first (name : String) (slots : List VMSlot) (i : Nat)
    (h : i < slots.length) (hname : (slots.get ⟨i, h⟩).name = name)
    (hfirst : ∀ j (hj : j < slots.length), j < i →
      (slots.get ⟨j, hj⟩).name ≠ name) :
    release name slots =
      Except.ok (slots.set i (releaseSlot (slots.get ⟨i, h⟩))) := by
  induction slots generalizing i with
  | nil => exact absurd h (by simp)
  | cons a rest ih =>
    match i with
    | 0 =>
      have ha : a.name = name := hname
      simp only [release, if_pos ha]
      rfl
    | k + 1 =>
      have ha : ¬a.name = name := hfirst 0 (by simp) (by omega)
      simp only [release, if_neg ha]
      have hk : k < rest.length := by simpa using h
      rw [ih k hk hname
        (fun j hj hlt => hfirst (j + 1) (by simpa using hj) (by omega))]
      rfl

end Pool

/-- C4 counterexample: the claim says a non-`Active` slot is left unchanged
by `Release`, but releasing a pool whose only slot (named `"a"`) is `Idle`
succeeds and flips that slot to `Cold`. -/
theorem C4_counterexample :
    Pool.release "a" [{ name := "a", state := Pool.SlotState.idle }] =
      Except.ok [{ name := "a", state := Pool.SlotState.cold }] ∧
    Pool.release "a" [{ name := "a", state := Pool.SlotState.idle }] ≠
      Except.ok [{ name := "a", state := Pool.SlotState.idle }] ∧
    ({ name := "a", state := Pool.SlotState.idle } : Pool.VMSlot).state ≠
      Pool.SlotState.active := by
  refine ⟨rfl, ?_, by decide⟩
  intro h
  have := (Except.ok.injEq _ _ ).mp h
  simp [Pool.releaseSlot] at this

/-- C4 (amended): `Release(name)` returns an error iff no slot with that
name exists; otherwise it sets the first slot with that name to `Cold` and
clears its `agentID` and `project` regardless of the slot's prior state,
leaving all other slots unchanged. -/
theorem C4_release_spec (name : String) (slots : List Pool.VMSlot) :
    ((∃ l, Pool.release name slots = Except.ok l) ↔ ∃ s ∈ slots, s.name = name) ∧
    ((∀ s ∈ slots, s.name ≠ name) →
      Pool.release name slots = Except.error "VM not found in pool") ∧
    (∀ i (h : i < slots.length), (slots.get ⟨i, h⟩).name = name →
      (∀ j (hj : j < slots.length), j < i →
        (slots.get ⟨j, hj⟩).name ≠ name) →
      Pool.release name slots =
        Except.ok (slots.set i (Pool.releaseSlot (slots.get ⟨i, h⟩)))) ∧
    (∀ t : Pool.VMSlot, (Pool.releaseSlot t).state = Pool.SlotState.cold ∧
      (Pool.releaseSlot t).agentID = "" ∧ (Pool.releaseSlot t).project = "" ∧
      (Pool.releaseSlot t).name = t.name) :=
  ⟨Pool.release_ok_iff name slots, Pool.release_error_of_absent name slots,
   fun i h hname hfirst => Pool.release_first name slots i h hname hfirst,
   fun _ => ⟨rfl, rfl, rfl, rfl⟩⟩

/-- Witness for C4: releasing the single active slot `"w"` turns it cold
and clears its binding. -/
theorem C4_release_spec_witness :
    Pool.release "w"
        [{ name := "w", state := Pool.SlotState.active, agentID := "a1",
           project := "p" }] =
      Except.ok [{ name := "w", state := Pool.SlotState.cold }] := by
  have h := (C4_release_spec "w"
    [{ name := "w", state := Pool.SlotState.active, agentID := "a1",
       project := "p" }]).2.2.1 0 (by decide) (by decide)
    (fun j hj hlt => absurd hlt (by omega))
  simpa [Pool.releaseSlot] using h

namespace Pool

theorem claimAux_none_iff (aid proj : String) (now : Nat) (ip : Option String)
    (slots : List VMSlot) :
    claimAux aid proj now ip slots = none ↔
      ∀ s ∈ slots, s.state ≠ SlotState.idle := by
  induction slots with
  | nil => simp [claimAux]
  | cons a rest ih =>
    by_cases ha : a.state = SlotState.idle
    · simp only [claimAux, if_pos ha]
      constructor
      · intro h; exact absurd h (by simp)
      · intro h; exact absurd ha (h a (by simp))
    · simp only [claimAux, if_neg ha]
      rw [Option.map_eq_none', ih]
      constructor
      · intro h s hs
        rcases List.mem_cons.mp hs with rfl | hs
        · exact ha
        · exact h s hs
      · intro h s hs; exact h s (by simp [hs])

theorem claimAux_first (aid proj : String) (now : Nat) (ip : Option String)
    (slots : List VMSlot) (i : Nat) (h : i < slots.length)
    (hidle : (slots.get ⟨i, h⟩).state = SlotState.idle)
    (hfirst : ∀ j (hj : j < slots.length), j < i →
      (slots.get ⟨j, hj⟩).state ≠ SlotState.idle) :
    claimAux aid proj now ip slots =
      some (claimUpdate aid proj now ip (slots.get ⟨i, h⟩),
            slots.set i (claimUpdate aid proj now ip (slots.get ⟨i, h⟩))) := by
  induction slots generalizing i with
  | nil => exact absurd h (by simp)
  | cons a rest ih =>
    match i with
    | 0 =>
      have ha : a.state = SlotState.idle := hidle
      simp only [claimAux, if_pos ha]
      rfl
    | k + 1 =>
      have ha : ¬a.state = SlotState.idle := hfirst 0 (by simp) (by omega)
      simp only [claimAux, if_neg ha]
      rw [ih k (by simpa using h) hidle
        (fun j hj hlt => hfirst (j + 1) (by simpa using hj) (by omega))]
      rfl

theorem claimAux_some_ex (aid proj : String) (now : Nat) (ip : Option String)
    (slots : List VMSlot) (p : VMSlot × List VMSlot)
    (hsome : claimAux aid proj now ip slots = some p) :
    ∃ i, ∃ h : i < slots.length,
      (slots.get ⟨i, h⟩).state = SlotState.idle ∧
      p.1 = claimUpdate aid proj now ip (slots.get ⟨i, h⟩) ∧
      p.2 = slots.set i p.1 := by
  induction slots generalizing p with
  | nil => exact absurd hsome (by simp [claimAux])
  | cons a rest ih =>
    by_cases ha : a.state = SlotState.idle
    · simp only [claimAux, if_pos ha] at hsome
      obtain rfl := (Option.some.injEq _ _).mp hsome
      exact ⟨0, by simp, ha, rfl, rfl⟩
    · simp only [claimAux, if_neg ha] at hsome
      match hrest : claimAux aid proj now ip rest with
      | none => rw [hrest] at hsome; exact absurd hsome (by simp)
      | some q =>
        rw [hrest] at hsome
        simp only [Option.map_some'] at hsome
        obtain rfl := (Option.some.injEq _ _).mp hsome
        obtain ⟨i, hlen, hidle, h1, h2⟩ := ih q hrest
        refine ⟨i + 1, by simpa using hlen, hidle, h1, ?_⟩
        show a :: q.2 = (a :: rest).set (i + 1) q.1
        show a :: q.2 = a :: rest.set i q.1
        exact congrArg (List.cons a) h2

end Pool

/-- C2: `Claim` updates the first `Idle` slot in insertion order to
`Active`, stamping `agentID`, `project` and `claimedAt` and leaving every
other slot unchanged (the table becomes `slots.set i u`); it returns an
error iff no `Idle` slot exists, and in that case no slot is mutated. -/
theorem C2_claim_spec (aid proj : String) (now : Nat) (ip : Option String)
    (slots : List Pool.VMSlot) :
    ((∃ e, (Pool.claim aid proj now ip slots).1 = Except.error e) ↔
      ∀ s ∈ slots, s.state ≠ Pool.SlotState.idle) ∧
    ((∀ s ∈ slots, s.state ≠ Pool.SlotState.idle) →
      Pool.claim aid proj now ip slots =
        (Except.error "no warm VMs available", slots)) ∧
    (∀ i (h : i < slots.length),
      (slots.get ⟨i, h⟩).state = Pool.SlotState.idle →
      (∀ j (hj : j < slots.length), j < i →
        (slots.get ⟨j, hj⟩).state ≠ Pool.SlotState.idle) →
      Pool.claim aid proj now ip slots =
        (Except.ok (Pool.claimUpdate aid proj now ip (slots.get ⟨i, h⟩)),
         slots.set i (Pool.claimUpdate aid proj now ip (slots.get ⟨i, h⟩)))) ∧
    (∀ t : Pool.VMSlot,
      (Pool.claimUpdate aid proj now ip t).state = Pool.SlotState.active ∧
      (Pool.claimUpdate aid proj now ip t).agentID = aid ∧
      (Pool.claimUpdate aid proj now ip t).project = proj ∧
      (Pool.claimUpdate aid proj now ip t).claimedAt = now ∧
      (Pool.claimUpdate aid proj now ip t).name = t.name) := by
  refine ⟨?_, ?_, ?_, fun _ => ⟨rfl, rfl, rfl, rfl, rfl⟩⟩
  · constructor
    · rintro ⟨e, he⟩
      match hm : Pool.claimAux aid proj now ip slots with
      | some p =>
        rw [Pool.claim, hm] at he
        exact absurd he (by simp)
      | none => exact (Pool.claimAux_none_iff aid proj now ip slots).mp hm
    · intro hall
      rw [Pool.claim, (Pool.claimAux_none_iff aid proj now ip slots).mpr hall]
      exact ⟨"no warm VMs available", rfl⟩
  · intro hall
    rw [Pool.claim, (Pool.claimAux_none_iff aid proj now ip slots).mpr hall]
  · intro i h hidle hfirst
    rw [Pool.claim, Pool.claimAux_first aid proj now ip slots i h hidle hfirst]

/-- Witness for C2: claiming from a one-slot idle pool activates that slot
with the stamped fields. -/
theorem C2_claim_spec_witness :
    Pool.claim "a1" "p" 5 none [{ name := "w", state := Pool.SlotState.idle }] =
      (Except.ok { name := "w", state := Pool.SlotState.active,
                   agentID := "a1", project := "p", claimedAt := 5 },
       [{ name := "w", state := Pool.SlotState.active, agentID := "a1",
          project := "p", claimedAt := 5 }]) := by
  have h := (C2_claim_spec "a1" "p" 5 none
    [{ name := "w", state := Pool.SlotState.idle }]).2.2.1 0 (by decide)
    (by decide) (fun j hj hlt => absurd hlt (by omega))
  simpa [Pool.claimUpdate] using h

namespace Pool

theorem jGet_optField_of_ne (k k' v : String) (rest : List (String × Json))
    (h : ¬k' = k) : jGet k (optField k' v ++ rest) = jGet k rest := by
  unfold optField
  split
  · rfl
  · simp [jGet, h]

theorem slotStateOfStr_slotStateStr (st : SlotState) :
    slotStateOfStr (slotStateStr st) = some st := by
  cases st <;> rfl

end Pool

namespace Pool

theorem jStrVal_optField (k v : String) (rest : List (String × Json))
    (hrest : jGet k rest = none) :
    jStrVal (jGet k (optField k v ++ rest)) = some v := by
  by_cases hv : v = ""
  · simp only [optField, if_pos hv, List.nil_append, hrest]
    rw [hv]
    rfl
  · simp only [optField, if_neg hv, List.cons_append, List.nil_append,
      jGet, if_pos rfl]
    rfl

theorem jStrVal_str (v : String) : jStrVal (some (Json.str v)) = some v := rfl

theorem jTimeVal_natCast (n : Nat) :
    jTimeVal (some (Json.num (n : Int))) = some n := by
  have h : ¬((n : Int) < 0) := by omega
  simp [jTimeVal, h]

theorem decodeSlot_encodeSlot (s : VMSlot) :
    decodeSlot (encodeSlot s) = some s := by
  obtain ⟨name, state, agentID, project, tool, branch, issue, vmIP,
    createdAt, claimedAt⟩ := s
  simp only [encodeSlot, decodeSlot, jStr, jTime, List.cons_append,
    List.append_assoc, List.nil_append]
  simp [jGet, jGet_optField_of_ne, jStrVal_optField, jStrVal_str,
    jTimeVal_natCast, slotStateOfStr_slotStateStr]

end Pool

namespace Pool

theorem decodeState_encodeState (st : PersistentState) :
    decodeState (encodeState st) = some st := by
  obtain ⟨slots, counter⟩ := st
  have hmap : decodeSlots (slots.map encodeSlot) = some slots := by
    induction slots with
    | nil => rfl
    | cons a rest ih => simp [decodeSlots, decodeSlot_encodeSlot, ih]
  simp [encodeState, decodeState, jGet, hmap]

end Pool

/-- C9: saving any pool snapshot and loading it back returns an equal
snapshot (`PoolStore.Save(s); PoolStore.Load() = s`), whatever the previous
content of the state file was. -/
theorem C9_store_roundtrip (st : Pool.PersistentState) (file : Option Pool.Json) :
    Pool.storeLoad (Pool.storeSave st file) = Except.ok st := by
  simp [Pool.storeSave, Pool.storeLoad, Pool.decodeState_encodeState]

namespace Pool

/-- Specification form of the `needed` computation. -/
theorem needed_eq (cfg : PoolConfig) (slots : List VMSlot) :
    needed cfg slots =
      max 0 (min
        (cfg.warmSize -
          ((slots.filter fun s => s.state = SlotState.idle).length : Int))
        (cfg.maxVMs - (slots.length : Int))) := by
  unfold needed
  dsimp only
  rw [max_def, min_def]
  split_ifs <;> omega

/-- The names the replenish loop inserts when started at counter `c` for
`n` iterations. -/
def newNames (c : Int) : Nat → List String
  | 0 => []
  | n + 1 => vmName (c + 1) :: newNames (c + 1) n

/-- The slots that survive the replenish loop: one `idle` slot per
iteration whose clone succeeded, in creation order. -/
def newSlots (clone : Int → Bool) (now : Nat) (c : Int) : Nat → List VMSlot
  | 0 => []
  | n + 1 =>
    (if clone (c + 1) then
      [{ name := vmName (c + 1), state := SlotState.idle, createdAt := now }]
     else []) ++ newSlots clone now (c + 1) n

theorem newNames_length (c : Int) (n : Nat) : (newNames c n).length = n := by
  induction n generalizing c with
  | zero => rfl
  | succ n ih => simp [newNames, ih]

theorem newSlots_length_le (clone : Int → Bool) (now : Nat) (c : Int) (n : Nat) :
    (newSlots clone now c n).length ≤ n := by
  induction n generalizing c with
  | zero => simp [newSlots]
  | succ n ih =>
    simp only [newSlots, List.length_append]
    have := ih (c + 1)
    split <;> simp <;> omega

theorem newSlots_mem_ex (clone : Int → Bool) (now : Nat) (c : Int) (n : Nat)
    (s : VMSlot) (hs : s ∈ newSlots clone now c n) :
    ∃ j : Int, c < j ∧ j ≤ c + n ∧ clone j = true ∧
      s = { name := vmName j, state := SlotState.idle, createdAt := now } := by
  induction n generalizing c with
  | zero => exact absurd hs (by simp [newSlots])
  | succ n ih =>
    simp only [newSlots] at hs
    rcases List.mem_append.mp hs with h | h
    · refine ⟨c + 1, by omega, by push_cast; omega, ?_, ?_⟩
      · by_contra hc
        rw [Bool.not_eq_true] at hc
        rw [hc] at h
        exact absurd h (by simp)
      · have hcl : clone (c + 1) = true := by
          by_contra hc
          rw [Bool.not_eq_true] at hc
          rw [hc] at h
          exact absurd h (by simp)
        rw [hcl] at h
        simpa using h
    · obtain ⟨j, h1, h2, h3, h4⟩ := ih (c + 1) h
      exact ⟨j, by omega, by push_cast at h2 ⊢; omega, h3, h4⟩

theorem newSlots_mem_of_clone (clone : Int → Bool) (now : Nat) (c : Int)
    (n : Nat) (m : Nat) (hm : m < n) (hcl : clone (c + 1 + m) = true) :
    ({ name := vmName (c + 1 + m), state := SlotState.idle,
       createdAt := now } : VMSlot) ∈ newSlots clone now c n := by
  induction n generalizing c m with
  | zero => omega
  | succ n ih =>
    simp only [newSlots, List.mem_append]
    match m with
    | 0 =>
      left
      simp only [show c + 1 + (0 : Nat) = c + 1 by push_cast; ring] at hcl
      rw [hcl]
      simp [show c + 1 + ((0 : Nat) : Int) = c + 1 by push_cast; ring]
    | m' + 1 =>
      right
      have := ih (c + 1) m' (by omega)
        (by rw [show c + 1 + 1 + (m' : Int) = c + 1 + ((m' + 1 : Nat) : Int) by push_cast; ring]; exact hcl)
      rwa [show c + 1 + 1 + (m' : Int) = c + 1 + ((m' + 1 : Nat) : Int) by push_cast; ring] at this

theorem setIdleByName_append (slots : List VMSlot) (a : VMSlot)
    (h : ∀ s ∈ slots, s.name ≠ a.name) :
    setIdleByName a.name (slots ++ [a]) =
      slots ++ [{ a with state := SlotState.idle }] := by
  induction slots with
  | nil => simp [setIdleByName]
  | cons b rest ih =>
    simp only [List.cons_append, setIdleByName, if_neg (h b (by simp)),
      List.append_eq]
    rw [ih fun s hs => h s (by simp [hs])]

theorem removeByName_append (slots : List VMSlot) (a : VMSlot)
    (h : ∀ s ∈ slots, s.name ≠ a.name) :
    removeByName a.name (slots ++ [a]) = slots := by
  induction slots with
  | nil => simp [removeByName]
  | cons b rest ih =>
    simp only [List.cons_append, removeByName, if_neg (h b (by simp)),
      List.append_eq]
    rw [ih fun s hs => h s (by simp [hs])]

end Pool

namespace Pool

theorem replenishGo_spec (clone : Int → Bool) (now : Nat) :
    ∀ (n : Nat) (slots : List VMSlot) (c : Int),
    (∀ k : Int, c < k → k ≤ c + n → ∀ s ∈ slots, s.name ≠ vmName k) →
    (∀ k j : Int, c < k → k ≤ c + n → c < j → j ≤ c + n → k ≠ j →
      vmName k ≠ vmName j) →
    replenishGo clone now n slots c =
      (slots ++ newSlots clone now c n, c + n, newNames c n) := by
  intro n
  induction n with
  | zero => intro slots c _ _; simp [replenishGo, newSlots, newNames]
  | succ n ih =>
    intro slots c hfresh hinj
    have hfreshHead : ∀ s ∈ slots, s.name ≠ vmName (c + 1) :=
      hfresh (c + 1) (by omega) (by push_cast; omega)
    have hstep :
        (if clone (c + 1) then
          setIdleByName (vmName (c + 1)) (slots ++
            [{ name := vmName (c + 1), state := SlotState.creating,
               createdAt := now }])
         else
          removeByName (vmName (c + 1)) (slots ++
            [{ name := vmName (c + 1), state := SlotState.creating,
               createdAt := now }])) =
        slots ++ newSlots clone now c 1 := by
      by_cases hcl : clone (c + 1)
      · rw [if_pos hcl]
        have := setIdleByName_append slots
          { name := vmName (c + 1), state := SlotState.creating,
            createdAt := now } hfreshHead
        simp only at this
        rw [this]
        simp [newSlots, hcl]
      · rw [if_neg hcl]
        have := removeByName_append slots
          { name := vmName (c + 1), state := SlotState.creating,
            createdAt := now } hfreshHead
        simp only at this
        rw [this]
        simp [newSlots, hcl]
    have hrec := ih (slots ++ newSlots clone now c 1) (c + 1)
      (by
        intro k hk1 hk2 s hs
        rcases List.mem_append.mp hs with hsl | hnew
        · exact hfresh k (by omega) (by push_cast at hk2 ⊢; omega) s hsl
        · obtain ⟨j, hj1, hj2, -, rfl⟩ :=
            newSlots_mem_ex clone now c 1 s hnew
          simp only
          exact hinj j k (by omega) (by push_cast at hj2 ⊢; omega)
            (by omega) (by push_cast at hk2 ⊢; omega) (by omega))
      (fun k j hk1 hk2 hj1 hj2 hne =>
        hinj k j (by omega) (by push_cast at hk2 ⊢; omega) (by omega)
          (by push_cast at hj2 ⊢; omega) hne)
    show (let c' := c + 1
          let nm := vmName c'
          let afterInsert := slots ++
            [{ name := nm, state := SlotState.creating, createdAt := now }]
          let afterClone :=
            if clone c' then setIdleByName nm afterInsert
            else removeByName nm afterInsert
          let r := replenishGo clone now n afterClone c'
          (r.1, r.2.1, nm :: r.2.2)) = _
    dsimp only
    rw [hstep, hrec]
    refine congrArg₂ Prod.mk ?_ (congrArg₂ Prod.mk ?_ ?_)
    · rw [List.append_assoc]
      have : newSlots clone now c 1 ++ newSlots clone now (c + 1) n =
          newSlots clone now c (n + 1) := by
        simp [newSlots]
      rw [this]
    · push_cast
      ring
    · rfl

end Pool

/-- C3: one `Replenish` run inserts exactly
`max(0, min(warmSize − idleCount, maxVMs − totalSlots))` slots (so with a
full table or enough idle slots it inserts none, and `totalSlots ≤ maxVMs`
is preserved); each inserted slot ends `Idle` when its clone succeeded and
is absent from the table when its clone failed. The freshness hypotheses
say the `warm-<k>` names the run generates are not already taken and do not
collide, which holds for the counter-generated names. -/
theorem C3_replenish_spec (cfg : Pool.PoolConfig) (clone : Int → Bool)
    (now : Nat) (slots : List Pool.VMSlot) (c : Int)
    (hfresh : ∀ k : Int, c < k → k ≤ c + (Pool.needed cfg slots).toNat →
      ∀ s ∈ slots, s.name ≠ Pool.vmName k)
    (hinj : ∀ k j : Int, c < k → k ≤ c + (Pool.needed cfg slots).toNat →
      c < j → j ≤ c + (Pool.needed cfg slots).toNat → k ≠ j →
      Pool.vmName k ≠ Pool.vmName j) :
    Pool.replenish cfg clone now slots c =
      (slots ++ Pool.newSlots clone now c (Pool.needed cfg slots).toNat,
       c + (Pool.needed cfg slots).toNat,
       Pool.newNames c (Pool.needed cfg slots).toNat) ∧
    ((Pool.replenish cfg clone now slots c).2.2).length =
      (max 0 (min
        (cfg.warmSize -
          ((slots.filter fun s => s.state = Pool.SlotState.idle).length : Int))
        (cfg.maxVMs - (slots.length : Int)))).toNat ∧
    (((slots.length : Int) = cfg.maxVMs ∨
      cfg.warmSize ≤
        ((slots.filter fun s => s.state = Pool.SlotState.idle).length : Int)) →
      Pool.replenish cfg clone now slots c = (slots, c, [])) ∧
    ((slots.length : Int) ≤ cfg.maxVMs →
      (((Pool.replenish cfg clone now slots c).1.length : Int) ≤ cfg.maxVMs)) ∧
    (∀ m : Nat, m < (Pool.needed cfg slots).toNat →
      (clone (c + 1 + m) = true →
        ({ name := Pool.vmName (c + 1 + m), state := Pool.SlotState.idle,
           createdAt := now } : Pool.VMSlot)
          ∈ (Pool.replenish cfg clone now slots c).1) ∧
      (clone (c + 1 + m) = false →
        ∀ s ∈ (Pool.replenish cfg clone now slots c).1,
          s.name ≠ Pool.vmName (c + 1 + m))) := by
  have hmain : Pool.replenish cfg clone now slots c =
      (slots ++ Pool.newSlots clone now c (Pool.needed cfg slots).toNat,
       c + (Pool.needed cfg slots).toNat,
       Pool.newNames c (Pool.needed cfg slots).toNat) :=
    Pool.replenishGo_spec clone now (Pool.needed cfg slots).toNat slots c
      hfresh hinj
  have hne := Pool.needed_eq cfg slots
  refine ⟨hmain, ?_, ?_, ?_, ?_⟩
  · rw [hmain]
    simp [Pool.newNames_length, hne]
  · intro hfull
    have hn0 : (Pool.needed cfg slots).toNat = 0 := by
      rw [hne]
      rcases hfull with h | h <;> omega
    rw [hmain, hn0]
    simp [Pool.newSlots, Pool.newNames]
  · intro hle
    rw [hmain]
    have h1 := Pool.newSlots_length_le clone now c (Pool.needed cfg slots).toNat
    have h2 : ((Pool.needed cfg slots).toNat : Int) =
        max (Pool.needed cfg slots) 0 := by omega
    rw [hne] at h2
    simp only [List.length_append]
    push_cast at h2 ⊢
    omega
  · intro m hm
    constructor
    · intro hcl
      rw [hmain]
      exact List.mem_append.mpr
        (Or.inr (Pool.newSlots_mem_of_clone clone now c _ m hm hcl))
    · intro hcl s hs
      rw [hmain] at hs
      rcases List.mem_append.mp hs with h | h
      · exact hfresh (c + 1 + m) (by omega) (by omega) s h
      · obtain ⟨j, hj1, hj2, hj3, rfl⟩ :=
          Pool.newSlots_mem_ex clone now c _ s h
        simp only
        refine hinj j (c + 1 + m) (by omega) (by omega)
          (by omega) (by omega) ?_
        intro heq
        rw [heq, hcl] at hj3
        exact absurd hj3 (by simp)

/-- Witness for C3: replenishing an empty pool with `warmSize = 1`,
`maxVMs = 2`, counter `0` and a succeeding clone inserts exactly the slot
`warm-1`, which ends `Idle`. -/
theorem C3_replenish_spec_witness :
    Pool.replenish { warmSize := 1, maxVMs := 2, masterName := "m" }
        (fun _ => true) 7 [] 0 =
      ([{ name := "warm-1", state := Pool.SlotState.idle, createdAt := 7 }],
       1, ["warm-1"]) := by
  have hn : (Pool.needed
      { warmSize := 1, maxVMs := 2, masterName := "m" } []).toNat = 1 := by
    decide
  have h := (C3_replenish_spec
    { warmSize := 1, maxVMs := 2, masterName := "m" } (fun _ => true) 7 [] 0
    (fun k hk1 hk2 s hs => absurd hs (List.not_mem_nil s))
    (fun k j hk1 hk2 hj1 hj2 hne => by
      rw [hn] at hk2 hj2
      exact absurd (by omega : k = j) hne)).1
  rw [h]
  decide

namespace Pool

theorem Inv_mono (l l' : List VMSlot) (h : ∀ s ∈ l', s ∈ l) (hI : Inv l) :
    Inv l' :=
  fun s hs => hI s (h s hs)

theorem destroy_subset (name : String) (slots l : List VMSlot)
    (h : destroy name slots = Except.ok l) : ∀ s ∈ l, s ∈ slots := by
  induction slots generalizing l with
  | nil => exact absurd h (by simp [destroy])
  | cons a rest ih =>
    by_cases ha : a.name = name
    · simp only [destroy, if_pos ha] at h
      obtain rfl := (Except.ok.injEq _ _).mp h
      exact fun s hs => by simp [hs]
    · simp only [destroy, if_neg ha] at h
      match hrest : destroy name rest with
      | Except.error e => rw [hrest] at h; exact absurd h (by simp [Except.map])
      | Except.ok l' =>
        rw [hrest] at h
        obtain rfl := (Except.ok.injEq _ _).mp h
        intro s hs
        rcases List.mem_cons.mp hs with rfl | hs
        · simp
        · simp [ih l' hrest s hs]

theorem drain_subset (slots : List VMSlot) : ∀ s ∈ drain slots, s ∈ slots := by
  unfold drain
  generalize (slots.filter fun s => s.state = SlotState.idle).map VMSlot.name
    = names
  induction names generalizing slots with
  | nil => exact fun s hs => hs
  | cons nm rest ih =>
    intro s hs
    simp only [List.foldl_cons] at hs
    match hd : destroy nm slots with
    | Except.ok l =>
      rw [hd] at hs
      exact destroy_subset nm slots l hd s (ih l s hs)
    | Except.error e =>
      rw [hd] at hs
      exact ih slots s hs

theorem release_Inv (name : String) (slots l : List VMSlot)
    (h : release name slots = Except.ok l) (hI : Inv slots) : Inv l := by
  induction slots generalizing l with
  | nil => exact absurd h (by simp [release])
  | cons a rest ih =>
    by_cases ha : a.name = name
    · simp only [release, if_pos ha] at h
      obtain rfl := (Except.ok.injEq _ _).mp h
      intro s hs
      rcases List.mem_cons.mp hs with rfl | hs
      · simp [releaseSlot]
      · exact hI s (by simp [hs])
    · simp only [release, if_neg ha] at h
      match hrest : release name rest with
      | Except.error e => rw [hrest] at h; exact absurd h (by simp [Except.map])
      | Except.ok l' =>
        rw [hrest] at h
        obtain rfl := (Except.ok.injEq _ _).mp h
        intro s hs
        rcases List.mem_cons.mp hs with rfl | hs
        · exact hI s (by simp)
        · exact ih l' hrest (fun t ht => hI t (by simp [ht])) s hs

end Pool

/-- C5: the invariant "a slot is `Active` iff its `agentID` is non-empty"
is preserved by every pool operation: `Claim` with a non-empty agent id,
`Release`, `Destroy`, `Replenish` (under the counter-name freshness that
holds for generated names), `Drain`, and reconciliation. -/
theorem C5_inv_preserved :
    (∀ (aid proj : String) (now : Nat) (ip : Option String)
      (slots : List Pool.VMSlot), aid ≠ "" → Pool.Inv slots →
      Pool.Inv (Pool.claim aid proj now ip slots).2) ∧
    (∀ (name : String) (slots l : List Pool.VMSlot),
      Pool.release name slots = Except.ok l → Pool.Inv slots → Pool.Inv l) ∧
    (∀ (name : String) (slots l : List Pool.VMSlot),
      Pool.destroy name slots = Except.ok l → Pool.Inv slots → Pool.Inv l) ∧
    (∀ (cfg : Pool.PoolConfig) (clone : Int → Bool) (now : Nat)
      (slots : List Pool.VMSlot) (c : Int),
      (∀ k : Int, c < k → k ≤ c + (Pool.needed cfg slots).toNat →
        ∀ s ∈ slots, s.name ≠ Pool.vmName k) →
      (∀ k j : Int, c < k → k ≤ c + (Pool.needed cfg slots).toNat →
        c < j → j ≤ c + (Pool.needed cfg slots).toNat → k ≠ j →
        Pool.vmName k ≠ Pool.vmName j) →
      Pool.Inv slots → Pool.Inv (Pool.replenish cfg clone now slots c).1) ∧
    (∀ slots : List Pool.VMSlot, Pool.Inv slots →
      Pool.Inv (Pool.drain slots)) ∧
    (∀ (existing : List String) (slots : List Pool.VMSlot), Pool.Inv slots →
      Pool.Inv (Pool.reconcile existing slots)) := by
  refine ⟨?_, Pool.release_Inv, ?_, ?_, ?_, ?_⟩
  · intro aid proj now ip slots haid hI
    match hm : Pool.claimAux aid proj now ip slots with
    | none => simpa [Pool.claim, hm] using hI
    | some p =>
      obtain ⟨i, hlen, hidle, h1, h2⟩ :=
        Pool.claimAux_some_ex aid proj now ip slots p hm
      simp only [Pool.claim, hm]
      rw [h2]
      intro s hs
      rcases List.mem_or_eq_of_mem_set hs with hmem | rfl
      · exact hI s hmem
      · rw [h1]
        simp [Pool.claimUpdate, haid]
  · intro name slots l h hI
    exact Pool.Inv_mono slots l (Pool.destroy_subset name slots l h) hI
  · intro cfg clone now slots c hfresh hinj hI
    unfold Pool.replenish
    rw [Pool.replenishGo_spec clone now (Pool.needed cfg slots).toNat slots c
      hfresh hinj]
    intro s hs
    rcases List.mem_append.mp hs with h | h
    · exact hI s h
    · obtain ⟨j, -, -, -, rfl⟩ :=
        Pool.newSlots_mem_ex clone now c _ s h
      simp
  · intro slots hI
    exact Pool.Inv_mono slots (Pool.drain slots) (Pool.drain_subset slots) hI
  · intro existing slots hI
    exact fun s hs => hI s (List.mem_of_mem_filter hs)

/-- Witness for C5: each preservation clause applied to a small concrete
pool that satisfies the invariant. -/
theorem C5_inv_preserved_witness :
    Pool.Inv (Pool.claim "a1" "p" 3 none
      [{ name := "w1", state := Pool.SlotState.idle }]).2 ∧
    Pool.Inv [({ name := "w1", state := Pool.SlotState.cold } : Pool.VMSlot)] ∧
    Pool.Inv (Pool.drain
      [{ name := "w1", state := Pool.SlotState.idle },
       { name := "w2", state := Pool.SlotState.active, agentID := "a2" }]) ∧
    Pool.Inv (Pool.reconcile ["w2"]
      [{ name := "w1", state := Pool.SlotState.idle },
       { name := "w2", state := Pool.SlotState.active, agentID := "a2" }]) ∧
    Pool.Inv (Pool.replenish { warmSize := 1, maxVMs := 2, masterName := "m" }
      (fun _ => true) 7 [] 0).1 := by
  refine ⟨?_, ?_, ?_, ?_, ?_⟩
  · exact C5_inv_preserved.1 "a1" "p" 3 none
      [{ name := "w1", state := Pool.SlotState.idle }] (by decide) (by decide)
  · exact C5_inv_preserved.2.1 "w1"
      [{ name := "w1", state := Pool.SlotState.active, agentID := "a1" }]
      [{ name := "w1", state := Pool.SlotState.cold }] (by rfl) (by decide)
  · exact C5_inv_preserved.2.2.2.2.1
      [{ name := "w1", state := Pool.SlotState.idle },
       { name := "w2", state := Pool.SlotState.active, agentID := "a2" }]
      (by decide)
  · exact C5_inv_preserved.2.2.2.2.2 ["w2"]
      [{ name := "w1", state := Pool.SlotState.idle },
       { name := "w2", state := Pool.SlotState.active, agentID := "a2" }]
      (by decide)
  · refine C5_inv_preserved.2.2.2.1
      { warmSize := 1, maxVMs := 2, masterName := "m" } (fun _ => true) 7 [] 0
      (fun k hk1 hk2 s hs => absurd hs (List.not_mem_nil s)) ?_ (by decide)
    have hn : (Pool.needed
        { warmSize := 1, maxVMs := 2, masterName := "m" } []).toNat = 1 := by
      decide
    intro k j hk1 hk2 hj1 hj2 hne
    rw [hn] at hk2 hj2
    exact absurd (by omega : k = j) hne

namespace Orch

theorem rollback_set (slots : List Pool.VMSlot) (i : Nat)
    (h : i < slots.length) (hnodup : (slots.map Pool.VMSlot.name).Nodup)
    (u : Pool.VMSlot) (hname : u.name = (slots.get ⟨i, h⟩).name) :
    rollback u.name (slots.set i u) = slots.set i (Pool.releaseSlot u) := by
  have hlen : i < (slots.set i u).length := by simpa using h
  have hgi : (slots.set i u).get ⟨i, hlen⟩ = u := by
    simp [List.get_eq_getElem, List.getElem_set_self]
  have hrel := Pool.release_first u.name (slots.set i u) i hlen
    (by rw [hgi])
    (by
      intro j hj hlt
      have hji : j ≠ i := by omega
      have hj' : j < slots.length := by simpa using hj
      have hset : (slots.set i u).get ⟨j, hj⟩ = slots.get ⟨j, hj'⟩ := by
        simp [List.get_eq_getElem, List.getElem_set_ne (Ne.symm hji)]
      rw [hset, hname]
      intro hcontra
      have hjm : j < (slots.map Pool.VMSlot.name).length := by simpa using hj'
      have him : i < (slots.map Pool.VMSlot.name).length := by simpa using h
      have e1 : (slots.map Pool.VMSlot.name).get ⟨j, hjm⟩ =
          (slots.get ⟨j, hj'⟩).name := by
        simp [List.get_eq_getElem, List.getElem_map]
      have e2 : (slots.map Pool.VMSlot.name).get ⟨i, him⟩ =
          (slots.get ⟨i, h⟩).name := by
        simp [List.get_eq_getElem, List.getElem_map]
      have : (⟨j, hjm⟩ : Fin (slots.map Pool.VMSlot.name).length) = ⟨i, him⟩ :=
        hnodup.get_inj_iff.mp (by rw [e1, e2, hcontra])
      exact hji (by simpa using this))
  rw [hgi] at hrel
  unfold rollback
  rw [hrel, List.set_set]

end Orch

/-- C1: a dispatch that fails validation returns an error with the pool
untouched; any later failure (after a slot was claimed) releases exactly
the claimed slot, which ends `Cold` with its `agentID` cleared — the table
keeps its length (the slot is never removed) and every other slot is
unchanged. The name-uniqueness hypothesis holds for counter-generated
names. -/
theorem C1_dispatch_rollback (req : Orch.DispatchRequest) (aid host : String)
    (now : Nat) (orc : Orch.DispatchOracles) (slots : List Pool.VMSlot)
    (hnodup : (slots.map Pool.VMSlot.name).Nodup) :
    (∀ e, Orch.validateTask (Orch.mkTask req aid host now) = Except.error e →
      Orch.dispatch req aid host now orc slots =
        (Except.error ("invalid task: " ++ e), slots)) ∧
    (∀ e, (Orch.dispatch req aid host now orc slots).1 = Except.error e →
      (Orch.dispatch req aid host now orc slots).2 = slots ∨
      ∃ i, ∃ h : i < slots.length,
        (slots.get ⟨i, h⟩).state = Pool.SlotState.idle ∧
        (Orch.dispatch req aid host now orc slots).2 =
          slots.set i (Pool.releaseSlot
            (Pool.claimUpdate aid req.project now orc.ip
              (slots.get ⟨i, h⟩))) ∧
        ((Orch.dispatch req aid host now orc slots).2).length =
          slots.length) ∧
    (∀ t : Pool.VMSlot,
      (Pool.releaseSlot (Pool.claimUpdate aid req.project now orc.ip t)).state
          = Pool.SlotState.cold ∧
      (Pool.releaseSlot
        (Pool.claimUpdate aid req.project now orc.ip t)).agentID = "" ∧
      (Pool.releaseSlot
        (Pool.claimUpdate aid req.project now orc.ip t)).name = t.name) := by
  refine ⟨?_, ?_, fun _ => ⟨rfl, rfl, rfl⟩⟩
  · intro e hv
    simp [Orch.dispatch, hv]
  · intro e herr
    match hv : Orch.validateTask (Orch.mkTask req aid host now) with
    | Except.error e0 =>
      simp only [Orch.dispatch, hv]
      exact Or.inl trivial
    | Except.ok tc =>
      match hm : Pool.claimAux aid req.project now orc.ip slots with
      | none =>
        simp only [Orch.dispatch, hv, Pool.claim, hm]
        exact Or.inl trivial
      | some (u, l2) =>
        obtain ⟨i, hlen, hidle, h1, h2⟩ :=
          Pool.claimAux_some_ex aid req.project now orc.ip slots (u, l2) hm
        simp only at h1 h2
        have hpname : u.name = (slots.get ⟨i, hlen⟩).name := by
          rw [h1]; rfl
        have hroll : Orch.rollback u.name l2 =
            slots.set i (Pool.releaseSlot
              (Pool.claimUpdate aid req.project now orc.ip
                (slots.get ⟨i, hlen⟩))) := by
          rw [h2, h1]
          exact Orch.rollback_set slots i hlen hnodup
            (Pool.claimUpdate aid req.project now orc.ip
              (slots.get ⟨i, hlen⟩)) rfl
        right
        refine ⟨i, hlen, hidle, ?_⟩
        have hres : ∀ msg : String,
            ((Except.error msg : Except String Orch.DispatchResult),
              Orch.rollback u.name l2).2 =
              slots.set i (Pool.releaseSlot
                (Pool.claimUpdate aid req.project now orc.ip
                  (slots.get ⟨i, hlen⟩))) := by
          intro msg
          exact hroll
        by_cases hw1 : orc.writeTask
        · by_cases hw2 : orc.copyTask
          · by_cases hw3 : orc.writeEnv
            · by_cases hw4 : orc.copyEnv
              · by_cases hw5 : orc.shell
                · exact absurd (by
                    simp only [Orch.dispatch, hv, Pool.claim, hm, hw1, hw2,
                      hw3, hw4, hw5] at herr
                    exact herr) (by simp)
                · have hd : Orch.dispatch req aid host now orc slots =
                      (Except.error "restarting harness",
                        Orch.rollback u.name l2) := by
                    simp [Orch.dispatch, hv, Pool.claim, hm, hw1, hw2, hw3,
                      hw4, hw5]
                  rw [hd, hres "restarting harness"]
                  exact ⟨rfl, by rw [List.length_set]⟩
              · have hd : Orch.dispatch req aid host now orc slots =
                    (Except.error "injecting env config",
                      Orch.rollback u.name l2) := by
                  simp [Orch.dispatch, hv, Pool.claim, hm, hw1, hw2, hw3, hw4]
                rw [hd, hres "injecting env config"]
                exact ⟨rfl, by rw [List.length_set]⟩
            · have hd : Orch.dispatch req aid host now orc slots =
                  (Except.error "writing env file",
                    Orch.rollback u.name l2) := by
                simp [Orch.dispatch, hv, Pool.claim, hm, hw1, hw2, hw3]
              rw [hd, hres "writing env file"]
              exact ⟨rfl, by rw [List.length_set]⟩
          · have hd : Orch.dispatch req aid host now orc slots =
                (Except.error "injecting task config",
                  Orch.rollback u.name l2) := by
              simp [Orch.dispatch, hv, Pool.claim, hm, hw1, hw2]
            rw [hd, hres "injecting task config"]
            exact ⟨rfl, by rw [List.length_set]⟩
        · have hd : Orch.dispatch req aid host now orc slots =
              (Except.error "writing task config",
                Orch.rollback u.name l2) := by
            simp [Orch.dispatch, hv, Pool.claim, hm, hw1]
          rw [hd, hres "writing task config"]
          exact ⟨rfl, by rw [List.length_set]⟩

/-- Witness for C1: a dispatch whose runner-restart `Shell` fails rolls the
claimed slot back to `Cold`. -/
theorem C1_dispatch_rollback_witness :
    (Orch.dispatch
      { project := "p", repoURL := "u", tool := "claude-code", prompt := "x" }
      "a1" "h" 5 { shell := false }
      [{ name := "w", state := Pool.SlotState.idle }]).2 =
      [{ name := "w", state := Pool.SlotState.cold, claimedAt := 5 }] := by
  have h := (C1_dispatch_rollback
    { project := "p", repoURL := "u", tool := "claude-code", prompt := "x" }
    "a1" "h" 5 { shell := false }
    [{ name := "w", state := Pool.SlotState.idle }] (by decide)).2.1
    "restarting harness" (by rfl)
  rcases h with h | ⟨i, hi, hidle, hset, hlenq⟩
  · exact absurd h (by decide)
  · have hi0 : i = 0 := by simp at hi; omega
    subst hi0
    have hget : ([{ name := "w", state := Pool.SlotState.idle }] :
        List Pool.VMSlot).get ⟨0, hi⟩ =
        { name := "w", state := Pool.SlotState.idle } := rfl
    rw [hset, hget]
    decide

namespace Reg

theorem mapLookup_mapInsert_self (k : String) (v : AgentRegistration)
    (l : List (String × AgentRegistration)) :
    mapLookup k (mapInsert k v l) = some v := by
  induction l with
  | nil => simp [mapInsert, mapLookup]
  | cons kv rest ih =>
    by_cases hk : kv.1 = k
    · simp [mapInsert, hk, mapLookup]
    · simpa [mapInsert, hk, mapLookup] using ih

theorem mapLookup_eq_none_of_not_mem (k : String)
    (l : List (String × AgentRegistration)) (h : k ∉ l.map Prod.fst) :
    mapLookup k l = none := by
  induction l with
  | nil => rfl
  | cons kv rest ih =>
    have h1 : ¬kv.1 = k := fun he => h (by simp [he])
    simpa [mapLookup, h1] using ih (fun hm => h (by simp [hm]))

theorem mem_map_fst_mapInsert (a k : String) (v : AgentRegistration)
    (l : List (String × AgentRegistration)) :
    a ∈ (mapInsert k v l).map Prod.fst ↔ a = k ∨ a ∈ l.map Prod.fst := by
  induction l with
  | nil => simp [mapInsert]
  | cons kv rest ih =>
    obtain ⟨k1, v1⟩ := kv
    by_cases hk : k1 = k
    · have h1 : mapInsert k v ((k1, v1) :: rest) = (k, v) :: rest := by
        simp only [mapInsert]
        exact if_pos hk
      rw [h1, List.map_cons, List.map_cons]
      simp only [List.mem_cons, hk]
      tauto
    · have h1 : mapInsert k v ((k1, v1) :: rest) =
          (k1, v1) :: mapInsert k v rest := by
        simp only [mapInsert]
        exact if_neg hk
      rw [h1, List.map_cons, List.map_cons]
      simp only [List.mem_cons, ih]
      tauto

theorem nodup_keys_mapInsert (k : String) (v : AgentRegistration)
    (l : List (String × AgentRegistration))
    (h : (l.map Prod.fst).Nodup) : ((mapInsert k v l).map Prod.fst).Nodup := by
  induction l with
  | nil => simp [mapInsert]
  | cons kv rest ih =>
    simp only [List.map_cons, List.nodup_cons] at h
    obtain ⟨k1, v1⟩ := kv
    by_cases hk : k1 = k
    · have h1 : mapInsert k v ((k1, v1) :: rest) = (k, v) :: rest := by
        simp only [mapInsert]
        exact if_pos hk
      rw [h1, List.map_cons, List.nodup_cons]
      exact ⟨hk ▸ h.1, h.2⟩
    · have h1 : mapInsert k v ((k1, v1) :: rest) =
          (k1, v1) :: mapInsert k v rest := by
        simp only [mapInsert]
        exact if_neg hk
      rw [h1, List.map_cons, List.nodup_cons]
      refine ⟨?_, ih h.2⟩
      rw [mem_map_fst_mapInsert]
      rintro (he | hm)
      · exact hk he
      · exact h.1 hm

theorem mapLookup_mapErase_self (k : String)
    (l : List (String × AgentRegistration))
    (h : (l.map Prod.fst).Nodup) : mapLookup k (mapErase k l) = none := by
  induction l with
  | nil => rfl
  | cons kv rest ih =>
    simp only [List.map_cons, List.nodup_cons] at h
    by_cases hk : kv.1 = k
    · simp only [mapErase, if_pos hk]
      exact mapLookup_eq_none_of_not_mem k rest (hk ▸ h.1)
    · simpa [mapErase, hk, mapLookup] using ih h.2

end Reg

/-- C6: from a store with unique agent keys (a Go map always has unique
keys), `Register(a)` then `Deregister(a.agentID)` leaves no entry for the
agent; every subscriber whose queue has at least two free slots receives
exactly the `Registered` event followed by the `Deregistered` event for the
agent; and a subscriber whose queue is full receives nothing — the event is
dropped silently and the mutator never blocks. -/
theorem C6_register_deregister (st : Reg.Store) (reg : Reg.AgentRegistration)
    (hkeys : (st.agents.map Prod.fst).Nodup) :
    Reg.mapLookup reg.agentID
      (Reg.deregister reg.agentID (Reg.register reg st)).agents = none ∧
    (∀ (i : Nat) (q : List Reg.StoreEvent), st.subs[i]? = some q →
      q.length + 2 ≤ Reg.queueCap →
      (Reg.deregister reg.agentID (Reg.register reg st)).subs[i]? =
        some (q ++
          [{ type := Reg.StoreEventType.registered, agentID := reg.agentID,
             agent := some reg },
           { type := Reg.StoreEventType.deregistered,
             agentID := reg.agentID, agent := some reg }])) ∧
    (∀ (i : Nat) (q : List Reg.StoreEvent), st.subs[i]? = some q →
      Reg.queueCap ≤ q.length →
      (Reg.deregister reg.agentID (Reg.register reg st)).subs[i]? = some q) := by
  have hagent : (Reg.register reg st).agents =
      Reg.mapInsert reg.agentID reg st.agents := rfl
  have hsubs : (Reg.deregister reg.agentID (Reg.register reg st)).subs =
      Reg.notify { type := Reg.StoreEventType.deregistered,
                   agentID := reg.agentID, agent := some reg }
        (Reg.notify { type := Reg.StoreEventType.registered,
                      agentID := reg.agentID, agent := some reg } st.subs) := by
    simp only [Reg.deregister, Reg.register]
    rw [Reg.mapLookup_mapInsert_self reg.agentID reg st.agents]
  refine ⟨?_, ?_, ?_⟩
  · show Reg.mapLookup reg.agentID
      (Reg.mapErase reg.agentID (Reg.register reg st).agents) = none
    rw [hagent]
    exact Reg.mapLookup_mapErase_self reg.agentID _
      (Reg.nodup_keys_mapInsert reg.agentID reg st.agents hkeys)
  · intro i q hq hfree
    rw [hsubs]
    simp only [Reg.notify, List.getElem?_map, hq, Option.map_some']
    have h1 : ∀ ev : Reg.StoreEvent, Reg.notifyOne ev q = q ++ [ev] :=
      fun ev => by rw [Reg.notifyOne, if_pos (by omega)]
    rw [h1]
    have h2 : ∀ ev ev0 : Reg.StoreEvent,
        Reg.notifyOne ev (q ++ [ev0]) = (q ++ [ev0]) ++ [ev] :=
      fun ev ev0 => by rw [Reg.notifyOne, if_pos (by simp; omega)]
    rw [h2]
    simp
  · intro i q hq hfull
    rw [hsubs]
    simp only [Reg.notify, List.getElem?_map, hq, Option.map_some']
    have h1 : ∀ ev : Reg.StoreEvent, Reg.notifyOne ev q = q :=
      fun ev => by rw [Reg.notifyOne, if_neg (by omega)]
    rw [h1, h1]

/-- Witness for C6: one empty subscriber queue receives exactly the two
events, and the store ends with no entry for the agent. -/
theorem C6_register_deregister_witness :
    Reg.mapLookup "a"
      (Reg.deregister "a"
        (Reg.register { agentID := "a" } { agents := [], subs := [[]] })).agents
      = none ∧
    (Reg.deregister "a"
      (Reg.register { agentID := "a" } { agents := [], subs := [[]] })).subs[0]?
      = some
        [{ type := Reg.StoreEventType.registered, agentID := "a",
           agent := some { agentID := "a" } },
         { type := Reg.StoreEventType.deregistered, agentID := "a",
           agent := some { agentID := "a" } }] := by
  have h := C6_register_deregister { agents := [], subs := [[]] }
    { agentID := "a" } (by decide)
  exact ⟨h.1, by simpa using h.2.1 0 [] rfl (by decide)⟩

/-- C7 counterexample: the claim says the handler passes `message` (and
`branch`) to `UpdateState` so a non-empty message is reflected in the
store, but posting `{agentID := "a", state := "running",
message := "hello"}` against a registered agent leaves the stored
registration's `message` empty (and the handler has no `branch` field at
all): only `state` is updated. -/
theorem C7_counterexample :
    (Reg.handleStatus
      { agentID := "a", state := "running", message := "hello" }
      [("a", { agentID := "a", state := "registered" })]).1 = 200 ∧
    (Reg.handleStatus
      { agentID := "a", state := "running", message := "hello" }
      [("a", { agentID := "a", state := "registered" })]).2 =
      [("a", { agentID := "a", state := "running", message := "" })] ∧
    ("" : String) ≠ "hello" := by
  refine ⟨rfl, rfl, by decide⟩

/-- C7 (amended): on a well-formed body the handler calls
`UpdateState(agentID, state)` only — the decoded `message` is ignored (the
handler's response and resulting store do not depend on it, and `branch` is
not even decoded) — the named registration's `state` field is overwritten
and nothing else changes, and the handler responds 404 iff `agentID` is not
registered (200 otherwise). -/
theorem C7_handleStatus_spec (r : Reg.StatusReport)
    (agents : List (String × Reg.AgentRegistration)) :
    ((Reg.handleStatus r agents).1 = 404 ↔
      Reg.mapLookup r.agentID agents = none) ∧
    (Reg.mapLookup r.agentID agents = none →
      (Reg.handleStatus r agents).2 = agents) ∧
    (∀ reg, Reg.mapLookup r.agentID agents = some reg →
      (Reg.handleStatus r agents).1 = 200 ∧
      (Reg.handleStatus r agents).2 =
        Reg.mapInsert r.agentID { reg with state := r.state } agents) ∧
    (∀ m : String,
      Reg.handleStatus
        { agentID := r.agentID, state := r.state, message := m } agents =
        Reg.handleStatus r agents) := by
  refine ⟨?_, ?_, ?_, fun m => rfl⟩
  · match hl : Reg.mapLookup r.agentID agents with
    | none =>
      simp only [Reg.handleStatus, Reg.updateState, hl]
    | some reg =>
      simp only [Reg.handleStatus, Reg.updateState, hl]
      constructor
      · intro h
        exact absurd h (by simp)
      · intro h
        exact absurd h (by simp)
  · intro hl
    simp only [Reg.handleStatus, Reg.updateState, hl]
  · intro reg hl
    simp only [Reg.handleStatus, Reg.updateState, hl]
    exact ⟨trivial, trivial⟩

/-- Witness for C7: updating the state of a registered agent answers 200
and overwrites only the `state` field. -/
theorem C7_handleStatus_spec_witness :
    (Reg.handleStatus { agentID := "a", state := "pushing" }
      [("a", { agentID := "a", state := "executing", message := "old" })]).1
      = 200 ∧
    (Reg.handleStatus { agentID := "a", state := "pushing" }
      [("a", { agentID := "a", state := "executing", message := "old" })]).2
      = [("a", { agentID := "a", state := "pushing", message := "old" })] := by
  have h := (C7_handleStatus_spec { agentID := "a", state := "pushing" }
    [("a", { agentID := "a", state := "executing", message := "old" })]).2.2.1
    { agentID := "a", state := "executing", message := "old" } (by rfl)
  exact ⟨h.1, by rw [h.2]; rfl⟩

namespace WS

/-- Well-formedness of the stream table: the `agentID` keys are unique
(it models a Go map) and no stream record has an empty subscriber set. -/
def WF (st : LSM) : Prop :=
  (st.streams.map LogStream.agentID).Nodup ∧
    ∀ s ∈ st.streams, s.clients ≠ []

theorem addClient_ne_nil (c : Nat) (l : List Nat) : addClient c l ≠ [] := by
  by_cases hc : c ∈ l
  · simp only [addClient, if_pos hc]
    rintro rfl
    exact absurd hc (by simp)
  · simp [addClient, hc]

theorem map_agentID_update (streams : List LogStream)
    (f : LogStream → LogStream) (hf : ∀ s, (f s).agentID = s.agentID) :
    (streams.map f).map LogStream.agentID =
      streams.map LogStream.agentID := by
  rw [List.map_map]
  exact List.map_congr_left fun a _ => hf a

theorem subscribe_WF (a : String) (c : Nat) (slot : Option Pool.VMSlot)
    (st : LSM) (h : WF st) : WF (subscribe a c slot st) := by
  unfold subscribe
  match hf : st.streams.find? fun s => s.agentID = a with
  | some s0 =>
    simp only [hf]
    constructor
    · rw [map_agentID_update st.streams _
        (fun s => by by_cases hs : s.agentID = a <;> simp [hs])]
      exact h.1
    · intro s hs
      rcases List.mem_map.mp hs with ⟨t, ht, rfl⟩
      by_cases hta : t.agentID = a
      · simp only [if_pos hta]
        exact addClient_ne_nil c t.clients
      · simp only [if_neg hta]
        exact h.2 t ht
  | none =>
    simp only [hf]
    match slot with
    | none => exact h
    | some sl =>
      constructor
      · rw [List.map_append, List.nodup_append]
        refine ⟨h.1, by simp, ?_⟩
        intro x hx hx2
        simp only [List.map_cons, List.map_nil, List.mem_cons,
          List.not_mem_nil, or_false] at hx2
        rcases List.mem_map.mp hx with ⟨t, ht, rfl⟩
        have := List.find?_eq_none.mp hf t ht
        simp only [decide_eq_true_eq] at this
        exact this (by simpa using hx2)
      · intro s hs
        rcases List.mem_append.mp hs with hsl | hsr
        · exact h.2 s hsl
        · simp only [List.mem_singleton] at hsr
          subst hsr
          simp

theorem unsubscribe_WF (a : String) (c : Nat) (st : LSM) (h : WF st) :
    WF (unsubscribe a c st) := by
  unfold unsubscribe
  match hf : st.streams.find? fun s => s.agentID = a with
  | none => simpa only [hf] using h
  | some s0 =>
    simp only [hf]
    by_cases he : removeClient c s0.clients = []
    · simp only [if_pos he]
      constructor
      · exact ((List.filter_sublist st.streams).map
          LogStream.agentID).nodup h.1
      · intro s hs
        exact h.2 s (List.mem_filter.mp hs).1
    · simp only [if_neg he]
      constructor
      · rw [map_agentID_update st.streams _
          (fun s => by by_cases hs : s.agentID = a <;> simp [hs])]
        exact h.1
      · intro s hs
        rcases List.mem_map.mp hs with ⟨t, ht, rfl⟩
        by_cases hta : t.agentID = a
        · simp only [if_pos hta]
          exact he
        · simp only [if_neg hta]
          exact h.2 t ht

theorem unsubscribeAll_WF (c : Nat) (st : LSM) (h : WF st) :
    WF (unsubscribeAll c st) := by
  unfold unsubscribeAll
  constructor
  · refine ((List.filter_sublist _).map LogStream.agentID).nodup ?_
    rw [map_agentID_update st.streams
      (fun t => { t with clients := removeClient c t.clients })
      (fun s => rfl)]
    exact h.1
  · intro s hs
    have := (List.mem_filter.mp hs).2
    simpa using this

theorem applyOp_WF (st : LSM) (op : LSMOp) (h : WF st) :
    WF (applyOp st op) := by
  match op with
  | LSMOp.sub a c slot => exact subscribe_WF a c slot st h
  | LSMOp.unsub a c => exact unsubscribe_WF a c st h
  | LSMOp.unsubAll c => exact unsubscribeAll_WF c st h

theorem WF_foldl (ops : List LSMOp) :
    ∀ st : LSM, WF st → WF (ops.foldl applyOp st) := by
  induction ops with
  | nil => exact fun st h => h
  | cons op rest ih =>
    intro st h
    exact ih (applyOp st op) (applyOp_WF st op h)

theorem WF_run (ops : List LSMOp) : WF (runLSM ops) :=
  WF_foldl ops initLSM ⟨by simp [initLSM], by simp [initLSM]⟩

theorem removed_cancelled (st : LSM) (h : WF st) (op : LSMOp) :
    ∀ s ∈ st.streams,
      (∀ t ∈ (applyOp st op).streams, t.agentID ≠ s.agentID) →
      s.token ∈ (applyOp st op).cancelled := by
  intro s hs habs
  match op with
  | LSMOp.sub a c slot =>
    exfalso
    revert habs
    simp only [applyOp]
    unfold subscribe
    match hf : st.streams.find? fun t => t.agentID = a with
    | some s0 =>
      simp only [hf]
      intro habs
      refine habs _ (List.mem_map_of_mem _ hs) ?_
      by_cases hsa : s.agentID = a <;> simp [hsa]
    | none =>
      simp only [hf]
      match slot with
      | none => exact fun habs => habs s hs rfl
      | some sl =>
        intro habs
        exact habs s (List.mem_append.mpr (Or.inl hs)) rfl
  | LSMOp.unsub a c =>
    revert habs
    simp only [applyOp]
    unfold unsubscribe
    match hf : st.streams.find? fun t => t.agentID = a with
    | none =>
      simp only [hf]
      exact fun habs => absurd rfl (habs s hs)
    | some s0 =>
      simp only [hf]
      by_cases he : removeClient c s0.clients = []
      · simp only [if_pos he]
        intro habs
        by_cases hsa : s.agentID = a
        · have hs0mem := List.mem_of_find?_eq_some hf
          have hs0a : s0.agentID = a := by
            simpa using List.find?_some hf
          have hss0 : s = s0 :=
            List.inj_on_of_nodup_map h.1 hs hs0mem (by rw [hsa, hs0a])
          simp [hss0]
        · exact absurd rfl (habs s
            (List.mem_filter.mpr ⟨hs, by simpa using hsa⟩))
      · simp only [if_neg he]
        intro habs
        exfalso
        refine absurd ?_ (habs _ (List.mem_map_of_mem _ hs))
        by_cases hsa : s.agentID = a <;> simp [hsa]
  | LSMOp.unsubAll c =>
    revert habs
    simp only [applyOp]
    unfold unsubscribeAll
    by_cases he : removeClient c s.clients = []
    · intro habs
      refine List.mem_append.mpr (Or.inr ?_)
      have hmem : ({ s with clients := removeClient c s.clients } :
          LogStream) ∈ st.streams.map
            (fun t => { t with clients := removeClient c t.clients }) :=
        List.mem_map_of_mem _ hs
      have hfil : ({ s with clients := removeClient c s.clients } :
          LogStream) ∈ (st.streams.map
            (fun t => { t with clients := removeClient c t.clients })).filter
            (fun t => t.clients = []) :=
        List.mem_filter.mpr ⟨hmem, by simpa using he⟩
      exact List.mem_map.mpr ⟨_, hfil, rfl⟩
    · intro habs
      exfalso
      refine absurd rfl (habs { s with clients := removeClient c s.clients }
        (List.mem_filter.mpr
          ⟨List.mem_map_of_mem _ hs, by simpa using he⟩))

end WS

/-- C8: after any sequence of `Subscribe` / `Unsubscribe` /
`UnsubscribeAll` calls, the streams map holds at most one record (hence one
log-tail subprocess) per `agentID`, no record with an empty subscriber set
survives an operation, and any record an operation deletes has its
cancellation token cancelled by that same operation. -/
theorem C8_logstream_invariant (ops : List WS.LSMOp) :
    ((WS.runLSM ops).streams.map WS.LogStream.agentID).Nodup ∧
    (∀ s ∈ (WS.runLSM ops).streams, s.clients ≠ []) ∧
    (∀ op : WS.LSMOp, ∀ s ∈ (WS.runLSM ops).streams,
      (∀ t ∈ (WS.applyOp (WS.runLSM ops) op).streams,
        t.agentID ≠ s.agentID) →
      s.token ∈ (WS.applyOp (WS.runLSM ops) op).cancelled) := by
  have h := WS.WF_run ops
  exact ⟨h.1, h.2, fun op => WS.removed_cancelled (WS.runLSM ops) h op⟩

/-- Witness for C8: subscribing one client to agent `a` and then
unsubscribing it deletes the stream record and cancels its token. -/
theorem C8_logstream_invariant_witness :
    (0 : Nat) ∈ (WS.applyOp
      (WS.runLSM
        [WS.LSMOp.sub "a" 1 (some { name := "w", state := Pool.SlotState.active,
                                    agentID := "a" })])
      (WS.LSMOp.unsub "a" 1)).cancelled ∧
    (WS.applyOp
      (WS.runLSM
        [WS.LSMOp.sub "a" 1 (some { name := "w", state := Pool.SlotState.active,
                                    agentID := "a" })])
      (WS.LSMOp.unsub "a" 1)).streams = [] := by
  have h := (C8_logstream_invariant
    [WS.LSMOp.sub "a" 1 (some { name := "w", state := Pool.SlotState.active,
                                agentID := "a" })]).2.2
    (WS.LSMOp.unsub "a" 1)
    { agentID := "a", vmName := "w", token := 0, clients := [1] }
    (by decide) (by decide)
  exact ⟨h, by decide⟩
